import Mathlib

/-!
Shallow embedding of the annotation layout engine in `src/annotate_image.py`
(color tiers, bio word wrapping, text-block measurement, rectangle overlap,
six-candidate placement search, clamped fallback, and the per-image layout
pass), together with theorems settling the frozen claims about it.

Strings are modelled as lists of characters so that the Python string
operations used by the source (`split(' ')`, `strip()`, concatenation,
truthiness) have direct, provable counterparts.  Pixel widths and heights
returned by the external text measurement primitive are modelled as an
abstract function into the natural numbers; coordinates are integers.
Relevance scores (Python floats) are modelled as rationals.
-/

namespace Annotate

/-- Strings of the Python source, modelled as lists of characters. -/
abbrev Str := List Char

/-- Whitespace test used by the model of Python string `strip`. -/
def isWs (c : Char) : Bool := c.isWhitespace

/-- Model of Python `s.strip()`: remove leading and trailing whitespace. -/
def pyStrip (s : Str) : Str := ((s.dropWhile isWs).reverse.dropWhile isWs).reverse

/-- Model of Python `s.split(' ')`: split on each single space character,
keeping empty pieces (so consecutive spaces yield empty tokens and the
empty string yields one empty token). -/
def pySplitSpace : Str → List Str
  | [] => [[]]
  | c :: rest =>
    if c = ' ' then [] :: pySplitSpace rest
    else
      match pySplitSpace rest with
      | [] => [[c]]
      | l :: ls => (c :: l) :: ls

/-- The seed string of the bio wrapping loop, the literal string "Bio:"
of the source (line 180 of annotate_image.py). -/
def bioLabel : Str := ['B', 'i', 'o', ':']

/-- The literal label "Name: " of the source. -/
def nameLabel : Str := ['N', 'a', 'm', 'e', ':', ' ']

/-- The literal label "Score: " of the source. -/
def scoreLabel : Str := ['S', 'c', 'o', 'r', 'e', ':', ' ']

/-- The literal default "Bio not available." of the source. -/
def defaultBio : Str :=
  ['B', 'i', 'o', ' ', 'n', 'o', 't', ' ', 'a', 'v', 'a', 'i', 'l', 'a', 'b', 'l', 'e', '.']

/-- The constant `text_block_max_width = 250` of the source. -/
def text_block_max_width : Nat := 250

/-- One iteration of the bio wrapping loop of the source (lines 182-201):
build the candidate line with an interposed space and `strip` it; if it
measures wider than the budget and the current line is not the seed
string "Bio:", flush the current line and start a new one with the word,
otherwise the candidate becomes the current line. -/
def wrapStep (m : Str → Nat) (maxW : Nat) (st : List Str × Str) (w : Str) :
    List Str × Str :=
  let test := pyStrip (st.2 ++ ' ' :: w)
  if m test > maxW ∧ st.2 ≠ bioLabel then (st.1 ++ [st.2], w) else (st.1, test)

/-- The bio wrapping loop of the source over an explicit token list,
starting from the seed "Bio:" and flushing the final current line when
it is non-empty (lines 180-204). -/
def wrapTokens (m : Str → Nat) (maxW : Nat) (toks : List Str) : List Str :=
  let st := toks.foldl (wrapStep m maxW) ([], bioLabel)
  if st.2 ≠ [] then st.1 ++ [st.2] else st.1

/-- The bio lines produced for one item: the source splits the bio on
single spaces and runs the wrapping loop (lines 179-204). -/
def bioLines (m : Str → Nat) (maxW : Nat) (bio : Str) : List Str :=
  wrapTokens m maxW (pySplitSpace bio)

/-- Model of the Python f-string `f"{score:.2f}"` (line 177): the score
rounded to hundredths and printed with two digits after the point.  The
rounded value is the floor of 100q + 1/2, computed on the numerator and
denominator directly.  (Python rounds the underlying binary float
half-to-even; the model rounds the exact rational, which agrees away
from exact representation-level ties.) -/
def formatScore (q : ℚ) : Str :=
  let n : Int := (200 * q.num + (q.den : Int)).fdiv (2 * (q.den : Int))
  let a : Nat := n.natAbs
  let sign : Str := if n < 0 then ['-'] else []
  let fracDigits : Str :=
    if a % 100 < 10 then '0' :: Nat.toDigits 10 (a % 100) else Nat.toDigits 10 (a % 100)
  sign ++ Nat.toDigits 10 (a / 100) ++ '.' :: fracDigits

/-- The annotation line list built for one item (lines 175-204): the
"Name: ..." line, the "Score: ..." line, then the wrapped bio lines. -/
def linesFor (m : Str → Nat) (name : Str) (score : ℚ) (bio : Str) : List Str :=
  (nameLabel ++ name) :: (scoreLabel ++ formatScore score) ::
    bioLines m text_block_max_width bio

/-- The running maximum of measured line widths (`actual_max_line_width`
loop of `get_text_block_dimensions`, lines 96-103). -/
def maxLineWidth (m : Str → Nat) (lines : List Str) : Nat :=
  lines.foldl (fun acc l => if m l > acc then m l else acc) 0

/-- Model of `get_text_block_dimensions` (lines 85-109).  `lineH` models
the sample line height obtained from the external text measurement
primitive on "Tg"; `m` models its width measurement.  Padding is the
fixed 5 of the source. -/
def get_text_block_dimensions (m : Str → Nat) (lineH : Nat) (maxW : Nat)
    (lines : List Str) : Nat × Nat :=
  if lines = [] then (0, 0)
  else (min (maxLineWidth m lines) maxW + 2 * 5,
        lines.length * (lineH + 5) - 5 + 2 * 5)

/-- Model of `get_color_for_relevance` (lines 8-38): clamp the score into
[0,1], then three tiers with inclusive upper bounds; colors are BGR
triples, red (0,0,255), yellow (0,255,255), green (0,255,0). -/
def get_color_for_relevance (score : ℚ) : Int × Int × Int :=
  let s := max 0 (min 1 score)
  if s ≤ 33 / 100 then (0, 0, 255)
  else if s ≤ 66 / 100 then (0, 255, 255)
  else (0, 255, 0)

/-- Axis-aligned rectangle (x1, y1, x2, y2) in integer pixel coordinates,
as used by the source for anchor boxes and text-block backgrounds. -/
structure Rect where
  x1 : Int
  y1 : Int
  x2 : Int
  y2 : Int
deriving DecidableEq

/-- Model of `check_overlap` (lines 112-119): report non-overlap when the
projections fail to overlap strictly on either axis, overlap otherwise. -/
def check_overlap (r1 r2 : Rect) : Bool :=
  if r1.x1 ≥ r2.x2 ∨ r1.x2 ≤ r2.x1 ∨ r1.y1 ≥ r2.y2 ∨ r1.y2 ≤ r2.y1 then false
  else true

/-- The constant `qr_box_padding = 5` of the source (line 154). -/
def qr_box_padding : Int := 5

/-- The six candidate text positions of the source (lines 213-220), in
source order: right, left, below, above, centered below, centered above.
Python floor division on the box width is modelled with `Int.fdiv`. -/
def candidatePositions (qx qy qw qh : Int) (tw th : Nat) : List (Int × Int) :=
  [ (qx + qw + qr_box_padding, qy),
    (qx - (tw : Int) - qr_box_padding, qy),
    (qx, qy + qh + qr_box_padding),
    (qx, qy - (th : Int) - qr_box_padding),
    (qx + qw.fdiv 2 - (tw / 2 : Nat), qy + qh + qr_box_padding),
    (qx + qw.fdiv 2 - (tw / 2 : Nat), qy - (th : Int) - qr_box_padding) ]

/-- The padded background rectangle of a candidate text position
(lines 230-234): the text dimensions already include twice the padding 5,
so the rectangle is the position shifted up-left by 5 with size tw x th. -/
def candidateRect (p : Int × Int) (tw th : Nat) : Rect :=
  ⟨p.1 - 5, p.2 - 5, p.1 + (tw : Int) - 5, p.2 + (th : Int) - 5⟩

/-- The acceptance test of the placement loop (lines 237-247): reject a
candidate whose padded rectangle leaves the canvas, then reject it when
it overlaps any occupied region. -/
def admissible (imgW imgH : Nat) (occ : List Rect) (tw th : Nat)
    (p : Int × Int) : Bool :=
  let r := candidateRect p tw th
  if r.x1 < 0 ∨ r.y1 < 0 ∨ r.x2 > (imgW : Int) ∨ r.y2 > (imgH : Int) then false
  else !(occ.any fun o => check_overlap r o)

/-- The placement search of the source (lines 222-249): the first
admissible candidate position, none when all six are rejected. -/
def find_position (qx qy qw qh : Int) (tw th : Nat) (imgW imgH : Nat)
    (occ : List Rect) : Option (Int × Int) :=
  (candidatePositions qx qy qw qh tw th).find? (admissible imgW imgH occ tw th)

/-- The fallback position of the source (lines 252-265): right of the
anchor with a small vertical offset, then clamp right and bottom to the
canvas, then clamp left and top to 5. -/
def fallback_position (qx qy qw : Int) (tw th : Nat) (imgW imgH : Nat) :
    Int × Int :=
  let x0 := qx + qw + qr_box_padding
  let y0 := qy + 5
  let x1 := if x0 + (tw : Int) - 5 > (imgW : Int) then (imgW : Int) - (tw : Int) + 5 else x0
  let y1 := if y0 + (th : Int) - 5 > (imgH : Int) then (imgH : Int) - (th : Int) + 5 else y0
  let x2 := if x1 < 5 then 5 else x1
  let y2 := if y1 < 5 then 5 else y1
  (x2, y2)

/-- The final position adjustment applied to the chosen position
(lines 274-278): pull the text origin to 5 when the background would
start at a negative coordinate. -/
def adjust_position (p : Int × Int) : Int × Int :=
  let y := if p.2 - 5 < 0 then 5 else p.2
  let x := if p.1 - 5 < 0 then 5 else p.1
  (x, y)

/-- The bounding rectangle returned by
`draw_multiline_text_with_background` (lines 40-83): degenerate when
there are no lines, otherwise the background rectangle of the block. -/
def draw_block_rect (m : Str → Nat) (lineH maxW : Nat) (lines : List Str)
    (p : Int × Int) : Rect :=
  if lines = [] then ⟨p.1, p.2, p.1, p.2⟩
  else
    ⟨p.1 - 5, p.2 - 5,
     p.1 + (min (maxLineWidth m lines) maxW : Nat) + 5,
     p.2 + (lines.length * (lineH + 5) - 5 : Nat) + 5⟩

/-- The text block outcome recorded for one item: chosen position,
whether the fallback produced it, and the drawn background rectangle. -/
structure BlockResult where
  pos : Int × Int
  usedFallback : Bool
  drawnRect : Rect
deriving DecidableEq

/-- The outcome recorded for one processed item: its anchor box and box
color are always present; the text block is absent exactly when the
zero-dimension skip branch fires (line 209). -/
structure ItemResult where
  pid : Str
  boxRect : Rect
  boxColor : Int × Int × Int
  lines : List Str
  block : Option BlockResult
deriving DecidableEq

/-- The per-item body of the layout loop (lines 160-286): draw the anchor
box with the relevance color, build and wrap the annotation lines,
measure the block, skip the block when a dimension is zero, otherwise
search the six candidates, fall back when exhausted, adjust, draw, and
register the drawn rectangle.  Returns the item record and the updated
occupied-regions list. -/
def processItem (m : Str → Nat) (lineH : Nat) (imgW imgH : Nat)
    (occ : List Rect) (pid : Str) (qx qy qw qh : Int) (score : ℚ)
    (name bio : Str) : ItemResult × List Rect :=
  let boxRect : Rect := ⟨qx, qy, qx + qw, qy + qh⟩
  let color := get_color_for_relevance score
  let lines := linesFor m name score bio
  let d := get_text_block_dimensions m lineH text_block_max_width lines
  if d.1 = 0 ∨ d.2 = 0 then (⟨pid, boxRect, color, lines, none⟩, occ)
  else
    match find_position qx qy qw qh d.1 d.2 imgW imgH occ with
    | some p =>
      let fp := adjust_position p
      let dr := draw_block_rect m lineH text_block_max_width lines fp
      (⟨pid, boxRect, color, lines, some ⟨fp, false, dr⟩⟩, occ ++ [dr])
    | none =>
      let fp := adjust_position (fallback_position qx qy qw d.1 d.2 imgW imgH)
      let dr := draw_block_rect m lineH text_block_max_width lines fp
      (⟨pid, boxRect, color, lines, some ⟨fp, true, dr⟩⟩, occ ++ [dr])

/-- The per-id profile record (`profiles_data` values): optional name and
bio fields, as read by `.get` in the source. -/
structure Profile where
  name : Option Str
  bio : Option Str

/-- The display name for an id (line 172): the profile name when present,
the id itself otherwise. -/
def nameOf (profiles : Str → Option Profile) (pid : Str) : Str :=
  match profiles pid with
  | some pr => pr.name.getD pid
  | none => pid

/-- The displayed bio for an id (line 173): the profile bio when present,
"Bio not available." otherwise. -/
def bioOf (profiles : Str → Option Profile) (pid : Str) : Str :=
  match profiles pid with
  | some pr => pr.bio.getD defaultBio
  | none => defaultBio

/-- The detections map lookup (line 143): the map is built by a dict
comprehension over the detection list, so a later entry with the same id
wins; lookup therefore finds the last matching entry. -/
def detLookup (dets : List (Str × (Int × Int × Int × Int))) (pid : Str) :
    Option (Int × Int × Int × Int) :=
  (dets.reverse.find? fun d => d.1 == pid).map (·.2)

/-- One step of the layout loop over the ranked list (lines 156-286):
ids absent from the detections map are skipped; otherwise the item is
processed against the current occupied-regions list. -/
def layoutStep (m : Str → Nat) (lineH : Nat) (imgW imgH : Nat)
    (dets : List (Str × (Int × Int × Int × Int)))
    (profiles : Str → Option Profile)
    (st : List Rect × List ItemResult) (entry : Str × ℚ) :
    List Rect × List ItemResult :=
  match detLookup dets entry.1 with
  | none => st
  | some bbox =>
    let r := processItem m lineH imgW imgH st.1 entry.1
      bbox.1 bbox.2.1 bbox.2.2.1 bbox.2.2.2 entry.2
      (nameOf profiles entry.1) (bioOf profiles entry.1)
    (r.2, st.2 ++ [r.1])

/-- One full layout pass of `annotate_image` (lines 142-286): fold the
layout step over the ranked profiles starting from an empty
occupied-regions list, returning the final occupied regions and the
per-item records. -/
def annotate_pass (m : Str → Nat) (lineH : Nat) (imgW imgH : Nat)
    (ranked : List (Str × ℚ))
    (dets : List (Str × (Int × Int × Int × Int)))
    (profiles : Str → Option Profile) : List Rect × List ItemResult :=
  ranked.foldl (layoutStep m lineH imgW imgH dets profiles) ([], [])

/-- The tier index of a BGR color under the spec's reading of the three
tiers: red is the low tier 0, yellow the mid tier 1, green the high
tier 2. -/
def tierOf (c : Int × Int × Int) : Nat :=
  if c = (0, 0, 255) then 0 else if c = (0, 255, 255) then 1 else 2

/-- The measured block dimensions of one item, as computed inside the
layout loop (line 207 of the source). -/
def itemDims (m : Str → Nat) (lineH : Nat) (score : ℚ) (name bio : Str) :
    Nat × Nat :=
  get_text_block_dimensions m lineH text_block_max_width (linesFor m name score bio)

/-- The measured block dimensions of one ranked entry, with the display
name and bio resolved from the profiles map as the source does. -/
def itemBlockDims (m : Str → Nat) (lineH : Nat) (profiles : Str → Option Profile)
    (pid : Str) (score : ℚ) : Nat × Nat :=
  itemDims m lineH score (nameOf profiles pid) (bioOf profiles pid)

/-- Joining a list of lines with single spaces. -/
def joinSp : List Str → Str
  | [] => []
  | [s] => s
  | s :: t :: ts => s ++ ' ' :: joinSp (t :: ts)

/-- The concatenation of tokens, each preceded by one space. -/
def spaceFlat : List Str → Str
  | [] => []
  | t :: ts => (' ' :: t) ++ spaceFlat ts

/-- A string is trimmed and non-empty when it has a first character and a
last character and neither is whitespace. -/
def okStr (s : Str) : Prop :=
  s ≠ [] ∧ (∀ c, s.head? = some c → isWs c = false) ∧
    (∀ c, s.getLast? = some c → isWs c = false)

/-- Stripping a string that starts with the seed "Bio:" leaves the seed
in place: both trims stop at its non-whitespace characters. -/
theorem pyStrip_seed (u : Str) : ∃ r, pyStrip (bioLabel ++ u) = bioLabel ++ r := by
  unfold pyStrip
  have h1 : (bioLabel ++ u).dropWhile isWs = bioLabel ++ u := by
    rw [show bioLabel ++ u = 'B' :: (['i', 'o', ':'] ++ u) from rfl]
    rw [List.dropWhile_cons]
    rw [show isWs 'B' = false from rfl]
    simp
  rw [h1, List.reverse_append, List.dropWhile_append]
  split
  · refine ⟨[], ?_⟩
    rw [show (bioLabel.reverse).dropWhile isWs = bioLabel.reverse from by decide]
    rw [List.reverse_reverse]
    simp
  · exact ⟨(u.reverse.dropWhile isWs).reverse,
      by rw [List.reverse_append, List.reverse_reverse]⟩

/-- Along the wrapping fold, the head of the lines-so-far (taking the
current line as last) always starts with the seed "Bio:". -/
theorem wrap_fold_seed (m : Str → Nat) (maxW : Nat) :
    ∀ (l : List Str) (st : List Str × Str),
      (∃ r, (st.1 ++ [st.2]).head? = some (bioLabel ++ r)) →
      ∃ r, ((l.foldl (wrapStep m maxW) st).1 ++
        [(l.foldl (wrapStep m maxW) st).2]).head? = some (bioLabel ++ r) := by
  intro l
  induction l with
  | nil => intro st h; exact h
  | cons w ws ih =>
    intro st h
    rw [List.foldl_cons]
    apply ih
    unfold wrapStep
    dsimp only
    split
    · obtain ⟨r, hr⟩ := h
      refine ⟨r, ?_⟩
      rw [List.head?_append, List.head?_append] at *
      cases hh : (st.1.head?) with
      | some a => rw [hh] at hr; simpa [hh] using hr
      | none => rw [hh] at hr; simpa [hh] using hr
    · obtain ⟨r, hr⟩ := h
      cases hl : st.1 with
      | nil =>
        rw [hl] at hr
        simp only [List.nil_append, List.head?_cons, Option.some.injEq] at hr
        obtain ⟨r2, hr2⟩ := pyStrip_seed (r ++ ' ' :: w)
        refine ⟨r2, ?_⟩
        simp only [List.nil_append, List.head?_cons, Option.some.injEq]
        rw [hr, List.append_assoc]
        exact hr2
      | cons a t =>
        rw [hl] at hr
        simp only [List.cons_append, List.head?_cons, Option.some.injEq] at hr
        refine ⟨r, ?_⟩
        simp only [List.cons_append, List.head?_cons, Option.some.injEq]
        exact hr

/-- The wrapped bio lines are never empty and their first line starts
with the seed "Bio:". -/
theorem wrapTokens_head (m : Str → Nat) (maxW : Nat) (toks : List Str) :
    ∃ r rest, wrapTokens m maxW toks = (bioLabel ++ r) :: rest := by
  obtain ⟨r, hr⟩ := wrap_fold_seed m maxW toks ([], bioLabel) ⟨[], by simp⟩
  unfold wrapTokens
  dsimp only
  by_cases h2 : (toks.foldl (wrapStep m maxW) ([], bioLabel)).2 ≠ []
  · rw [if_pos h2]
    cases hl : (toks.foldl (wrapStep m maxW) ([], bioLabel)).1 with
    | nil =>
      rw [hl] at hr
      simp only [List.nil_append, List.head?_cons, Option.some.injEq] at hr
      exact ⟨r, [], by rw [hr]; rfl⟩
    | cons a t =>
      rw [hl] at hr
      simp only [List.cons_append, List.head?_cons, Option.some.injEq] at hr
      exact ⟨r, t ++ [(toks.foldl (wrapStep m maxW) ([], bioLabel)).2],
        by rw [hr]; rfl⟩
  · rw [if_neg h2]
    push_neg at h2
    cases hl : (toks.foldl (wrapStep m maxW) ([], bioLabel)).1 with
    | nil =>
      rw [hl, h2] at hr
      simp only [List.nil_append, List.head?_cons, Option.some.injEq] at hr
      exact absurd hr (by simp [bioLabel])
    | cons a t =>
      rw [hl] at hr
      simp only [List.cons_append, List.head?_cons, Option.some.injEq] at hr
      exact ⟨r, t, by rw [hr]⟩

/-- The annotation line list always has at least three lines: the name
line, the score line, and at least one bio line. -/
theorem linesFor_length (m : Str → Nat) (name : Str) (score : ℚ) (bio : Str) :
    3 ≤ (linesFor m name score bio).length := by
  obtain ⟨r, rest, h⟩ := wrapTokens_head m text_block_max_width (pySplitSpace bio)
  unfold linesFor bioLines
  rw [h]
  simp

/-- A block with at least three lines has strictly positive measured
width and height. -/
theorem dims_pos (m : Str → Nat) (lineH maxW : Nat) (lines : List Str)
    (h3 : 3 ≤ lines.length) :
    0 < (get_text_block_dimensions m lineH maxW lines).1 ∧
    0 < (get_text_block_dimensions m lineH maxW lines).2 := by
  have hne : lines ≠ [] := by
    intro h
    rw [h] at h3
    simp at h3
  unfold get_text_block_dimensions
  rw [if_neg hne]
  refine ⟨by simp, ?_⟩
  have h15 : 15 ≤ lines.length * (lineH + 5) := by
    calc (15 : Nat) = 3 * 5 := rfl
      _ ≤ lines.length * (lineH + 5) := Nat.mul_le_mul h3 (by omega)
  simp only
  omega

/-- The zero-dimension skip branch of the layout loop never fires: every
processed item records a text block. -/
theorem processItem_block_isSome (m : Str → Nat) (lineH imgW imgH : Nat)
    (occ : List Rect) (pid : Str) (qx qy qw qh : Int) (score : ℚ)
    (name bio : Str) :
    ((processItem m lineH imgW imgH occ pid qx qy qw qh score name bio).1.block).isSome
      = true := by
  have h3 := linesFor_length m name score bio
  have hd := dims_pos m lineH text_block_max_width _ h3
  unfold processItem
  dsimp only
  rw [if_neg (by omega)]
  split <;> rfl

/-- dropWhile is the identity when the first character fails the test. -/
theorem dropWhile_eq_self_of_head (p : Char → Bool) (s : Str)
    (h : ∀ c, s.head? = some c → p c = false) : s.dropWhile p = s := by
  cases s with
  | nil => rfl
  | cons c t =>
    rw [List.dropWhile_cons, h c rfl]
    simp

/-- Stripping a trimmed non-empty string is the identity. -/
theorem pyStrip_eq_self {s : Str} (h : okStr s) : pyStrip s = s := by
  obtain ⟨hne, hh, hl⟩ := h
  unfold pyStrip
  rw [dropWhile_eq_self_of_head _ _ hh,
    dropWhile_eq_self_of_head _ _
      (fun c hc => hl c (by rwa [List.head?_reverse] at hc)),
    List.reverse_reverse]

/-- A non-empty fully non-whitespace token is trimmed. -/
theorem okStr_of_token (w : Str) (hne : w ≠ [])
    (hw : ∀ c ∈ w, isWs c = false) : okStr w :=
  ⟨hne, fun c hc => hw c (List.mem_of_mem_head? hc),
    fun c hc => hw c (List.mem_of_getLast?_eq_some hc)⟩

/-- The seed "Bio:" is a trimmed non-empty string. -/
theorem okStr_bioLabel : okStr bioLabel := by
  refine ⟨by simp [bioLabel], ?_, ?_⟩
  · intro c hc
    rw [show bioLabel.head? = some 'B' from rfl] at hc
    cases hc
    decide
  · intro c hc
    rw [show bioLabel.getLast? = some ':' from by decide] at hc
    cases hc
    decide

/-- Appending a space and a non-empty non-whitespace token to a trimmed
non-empty string gives a trimmed non-empty string. -/
theorem okStr_append_tok (s w : Str) (hs : okStr s) (hne : w ≠ [])
    (hw : ∀ c ∈ w, isWs c = false) : okStr (s ++ ' ' :: w) := by
  obtain ⟨hsne, hsh, hsl⟩ := hs
  refine ⟨by simp, ?_, ?_⟩
  · intro c hc
    rw [List.head?_append] at hc
    cases hh : s.head? with
    | none => exact absurd (List.head?_eq_none_iff.1 hh) hsne
    | some a =>
      rw [hh] at hc
      simp only [Option.or_some, Option.some.injEq] at hc
      exact hc ▸ hsh a hh
  · intro c hc
    cases w with
    | nil => exact absurd rfl hne
    | cons a t =>
      rw [List.getLast?_append, List.getLast?_cons_cons] at hc
      cases hg : (a :: t).getLast? with
      | none => exact absurd (List.getLast?_eq_none_iff.1 hg) (by simp)
      | some x =>
        rw [hg] at hc
        simp only [Option.or_some, Option.some.injEq] at hc
        exact hw c (hc ▸ List.mem_of_getLast?_eq_some hg)

/-- On trimmed state and a non-empty non-whitespace token, the strip in
the wrapping step is the identity, so the step is the plain greedy step. -/
theorem wrapStep_eq (m : Str → Nat) (maxW : Nat) (st : List Str × Str)
    (w : Str) (hs : okStr st.2) (hne : w ≠ [])
    (hw : ∀ c ∈ w, isWs c = false) :
    wrapStep m maxW st w =
      if m (st.2 ++ ' ' :: w) > maxW ∧ st.2 ≠ bioLabel
      then (st.1 ++ [st.2], w) else (st.1, st.2 ++ ' ' :: w) := by
  unfold wrapStep
  rw [pyStrip_eq_self (okStr_append_tok st.2 w hs hne hw)]

/-- joinSp unfolds on a cons with a non-empty tail. -/
theorem joinSp_cons_of_ne (x : Str) (l : List Str) (h : l ≠ []) :
    joinSp (x :: l) = x ++ ' ' :: joinSp l := by
  cases l with
  | nil => exact absurd rfl h
  | cons y t => rfl

/-- Appending one more line to a non-empty line list appends one space
and that line to the join. -/
theorem joinSp_append_singleton (l : List Str) (x : Str) (h : l ≠ []) :
    joinSp (l ++ [x]) = joinSp l ++ ' ' :: x := by
  induction l with
  | nil => exact absurd rfl h
  | cons a t ih =>
    cases t with
    | nil => rfl
    | cons b t2 =>
      rw [List.cons_append, joinSp_cons_of_ne a (b :: t2 ++ [x]) (by simp),
        ih (by simp), joinSp_cons_of_ne a (b :: t2) (by simp)]
      simp

/-- Extending the last line extends the join. -/
theorem joinSp_last_extend (l : List Str) (a b : Str) :
    joinSp (l ++ [a ++ b]) = joinSp (l ++ [a]) ++ b := by
  induction l with
  | nil => rfl
  | cons x t ih =>
    rw [List.cons_append, List.cons_append,
      joinSp_cons_of_ne x (t ++ [a ++ b]) (by simp),
      joinSp_cons_of_ne x (t ++ [a]) (by simp), ih]
    simp

/-- The join of a cons is the head followed by the space-prefixed flats
of the tail. -/
theorem joinSp_cons_flat (x : Str) (l : List Str) :
    joinSp (x :: l) = x ++ spaceFlat l := by
  induction l generalizing x with
  | nil => simp [joinSp, spaceFlat]
  | cons y t ih =>
    rw [joinSp_cons_of_ne x (y :: t) (by simp), ih y]
    simp [spaceFlat]

/-- Along the wrapping fold over non-empty non-whitespace tokens, the
current line stays trimmed and the join of the lines (current last)
accumulates every token once, in order, space-separated. -/
theorem wrap_fold_join (m : Str → Nat) (maxW : Nat) :
    ∀ (l : List Str) (st : List Str × Str),
      (∀ t ∈ l, t ≠ [] ∧ ∀ c ∈ t, isWs c = false) → okStr st.2 →
      okStr (l.foldl (wrapStep m maxW) st).2 ∧
      joinSp ((l.foldl (wrapStep m maxW) st).1 ++
          [(l.foldl (wrapStep m maxW) st).2]) =
        joinSp (st.1 ++ [st.2]) ++ spaceFlat l := by
  intro l
  induction l with
  | nil =>
    intro st _ hok
    exact ⟨hok, by simp [spaceFlat]⟩
  | cons w ws ih =>
    intro st hl hok
    have hwne := (hl w (by simp)).1
    have hwws := (hl w (by simp)).2
    rw [List.foldl_cons, wrapStep_eq m maxW st w hok hwne hwws]
    by_cases hc : m (st.2 ++ ' ' :: w) > maxW ∧ st.2 ≠ bioLabel
    · rw [if_pos hc]
      obtain ⟨hok2, hjoin⟩ := ih (st.1 ++ [st.2], w)
        (fun t ht => hl t (by simp [ht])) (okStr_of_token w hwne hwws)
      refine ⟨hok2, ?_⟩
      rw [hjoin]
      dsimp only
      rw [joinSp_append_singleton (st.1 ++ [st.2]) w (by simp)]
      simp [spaceFlat]
    · rw [if_neg hc]
      obtain ⟨hok2, hjoin⟩ := ih (st.1, st.2 ++ ' ' :: w)
        (fun t ht => hl t (by simp [ht]))
        (okStr_append_tok st.2 w hok hwne hwws)
      refine ⟨hok2, ?_⟩
      rw [hjoin]
      dsimp only
      rw [show st.2 ++ ' ' :: w = st.2 ++ (' ' :: w) from rfl,
        joinSp_last_extend st.1 st.2 (' ' :: w)]
      simp [spaceFlat]

/-- Along the wrapping fold over non-empty non-whitespace tokens drawn
from a list T, every flushed line that measures over the budget is the
seed "Bio:", a single token of T, or the seed followed by a single token
of T; the current line satisfies the same property or is within budget. -/
theorem wrap_fold_width (m : Str → Nat) (maxW : Nat) (T : List Str) :
    ∀ (l : List Str) (st : List Str × Str),
      (∀ t ∈ l, t ∈ T ∧ t ≠ [] ∧ ∀ c ∈ t, isWs c = false) → okStr st.2 →
      (st.2 = bioLabel ∨ m st.2 ≤ maxW ∨ st.2 ∈ T ∨
        ∃ t ∈ T, st.2 = bioLabel ++ ' ' :: t) →
      (∀ s ∈ st.1, m s > maxW → s = bioLabel ∨ s ∈ T ∨
        ∃ t ∈ T, s = bioLabel ++ ' ' :: t) →
      okStr (l.foldl (wrapStep m maxW) st).2 ∧
      ((l.foldl (wrapStep m maxW) st).2 = bioLabel ∨
        m (l.foldl (wrapStep m maxW) st).2 ≤ maxW ∨
        (l.foldl (wrapStep m maxW) st).2 ∈ T ∨
        ∃ t ∈ T, (l.foldl (wrapStep m maxW) st).2 = bioLabel ++ ' ' :: t) ∧
      ∀ s ∈ (l.foldl (wrapStep m maxW) st).1, m s > maxW →
        s = bioLabel ∨ s ∈ T ∨ ∃ t ∈ T, s = bioLabel ++ ' ' :: t := by
  intro l
  induction l with
  | nil =>
    intro st _ hok hcur hlines
    exact ⟨hok, hcur, hlines⟩
  | cons w ws ih =>
    intro st hl hok hcur hlines
    have hwT := (hl w (by simp)).1
    have hwne := (hl w (by simp)).2.1
    have hwws := (hl w (by simp)).2.2
    rw [List.foldl_cons, wrapStep_eq m maxW st w hok hwne hwws]
    by_cases hc : m (st.2 ++ ' ' :: w) > maxW ∧ st.2 ≠ bioLabel
    · rw [if_pos hc]
      apply ih (st.1 ++ [st.2], w) (fun t ht => hl t (by simp [ht]))
        (okStr_of_token w hwne hwws) (Or.inr (Or.inr (Or.inl hwT)))
      intro s hs hover
      rcases List.mem_append.1 hs with hs1 | hs2
      · exact hlines s hs1 hover
      · have : s = st.2 := by simpa using hs2
        subst this
        rcases hcur with h1 | h2 | h3 | h4
        · exact Or.inl h1
        · omega
        · exact Or.inr (Or.inl h3)
        · exact Or.inr (Or.inr h4)
    · rw [if_neg hc]
      apply ih (st.1, st.2 ++ ' ' :: w) (fun t ht => hl t (by simp [ht]))
        (okStr_append_tok st.2 w hok hwne hwws) ?_ hlines
      by_cases hb : st.2 = bioLabel
      · refine Or.inr (Or.inr (Or.inr ⟨w, hwT, ?_⟩))
        dsimp only
        rw [hb]
      · have hle : m (st.2 ++ ' ' :: w) ≤ maxW := by
          by_contra hgt
          exact hc ⟨by omega, hb⟩
        exact Or.inr (Or.inl hle)

/-- A successful `find?` splits the list into rejected elements, the hit,
and a remainder. -/
theorem find?_split {α : Type} (p : α → Bool) :
    ∀ (l : List α) (a : α), l.find? p = some a →
      ∃ l1 l2, l = l1 ++ a :: l2 ∧ p a = true ∧ ∀ x ∈ l1, p x = false := by
  intro l
  induction l with
  | nil => intro a h; simp [List.find?] at h
  | cons x t ih =>
    intro a h
    rw [List.find?_cons] at h
    by_cases hx : p x = true
    · rw [hx] at h
      have hxa : x = a := by simpa using h
      exact ⟨[], t, by simp [hxa], hxa ▸ hx, by simp⟩
    · have hx' : p x = false := by simpa using hx
      rw [hx'] at h
      obtain ⟨l1, l2, hl, hp, hrej⟩ := ih a h
      exact ⟨x :: l1, l2, by simp [hl], hp,
        fun y hy => by
          rcases List.mem_cons.1 hy with rfl | hy
          · simpa using hx
          · exact hrej y hy⟩

/-- Claim C9: check_overlap returns true exactly when the projections of
the two rectangles overlap strictly on both axes; it is symmetric in its
arguments; and rectangles sharing a boundary coordinate are reported as
non-overlapping. -/
theorem check_overlap_spec (r1 r2 : Rect) :
    (check_overlap r1 r2 = true ↔
      ¬(r1.x1 ≥ r2.x2 ∨ r1.x2 ≤ r2.x1 ∨ r1.y1 ≥ r2.y2 ∨ r1.y2 ≤ r2.y1)) ∧
    check_overlap r1 r2 = check_overlap r2 r1 ∧
    ((r1.x2 = r2.x1 ∨ r2.x2 = r1.x1 ∨ r1.y2 = r2.y1 ∨ r2.y2 = r1.y1) →
      check_overlap r1 r2 = false) := by
  refine ⟨?_, ?_, ?_⟩
  · unfold check_overlap
    split
    · simp_all
    · simp_all
  · unfold check_overlap
    split <;> split <;> first | rfl | omega
  · intro h
    unfold check_overlap
    split
    · rfl
    · omega

/-- Claim C9 witness: the spec's example rectangles share only the
boundary edge x = 10 and are reported as non-overlapping. -/
theorem check_overlap_spec_witness :
    check_overlap ⟨0, 0, 10, 10⟩ ⟨10, 0, 20, 10⟩ = false :=
  (check_overlap_spec ⟨0, 0, 10, 10⟩ ⟨10, 0, 20, 10⟩).2.2 (Or.inl rfl)

/-- Claim C7: the color is computed from the score clamped into [0,1];
the three tiers have inclusive upper bounds 0.33 and 0.66 and map to red,
yellow and green; the result is always one of those three colors; and the
tier is monotonically non-decreasing in the score. -/
theorem color_tiers_spec (s : ℚ) :
    (get_color_for_relevance s = (0, 0, 255) ↔ max 0 (min 1 s) ≤ 33 / 100) ∧
    (get_color_for_relevance s = (0, 255, 255) ↔
      33 / 100 < max 0 (min 1 s) ∧ max 0 (min 1 s) ≤ 66 / 100) ∧
    (get_color_for_relevance s = (0, 255, 0) ↔ 66 / 100 < max 0 (min 1 s)) ∧
    (get_color_for_relevance s = (0, 0, 255) ∨
      get_color_for_relevance s = (0, 255, 255) ∨
      get_color_for_relevance s = (0, 255, 0)) ∧
    ∀ s2 : ℚ, s ≤ s2 →
      tierOf (get_color_for_relevance s) ≤ tierOf (get_color_for_relevance s2) := by
  have hmono : ∀ a b : ℚ, a ≤ b → max 0 (min 1 a) ≤ max 0 (min 1 b) := by
    intro a b hab
    exact max_le_max le_rfl (min_le_min le_rfl hab)
  have key : ∀ a : ℚ, get_color_for_relevance a =
      (if max 0 (min 1 a) ≤ 33 / 100 then ((0 : Int), (0 : Int), (255 : Int))
       else if max 0 (min 1 a) ≤ 66 / 100 then (0, 255, 255) else (0, 255, 0)) :=
    fun _ => rfl
  have htier : ∀ a : ℚ, tierOf (get_color_for_relevance a) =
      (if max 0 (min 1 a) ≤ 33 / 100 then 0
       else if max 0 (min 1 a) ≤ 66 / 100 then (1 : Nat) else 2) := by
    intro a
    rw [key]
    by_cases h1 : max 0 (min 1 a) ≤ 33 / 100
    · simp [h1, tierOf]
    · by_cases h2 : max 0 (min 1 a) ≤ 66 / 100
      · simp [h1, h2, tierOf]
      · simp [h1, h2, tierOf]
  refine ⟨?_, ?_, ?_, ?_, ?_⟩
  · rw [key s]
    constructor
    · intro h
      by_contra hc1
      rw [if_neg hc1] at h
      by_cases hc2 : max 0 (min 1 s) ≤ 66 / 100
      · rw [if_pos hc2] at h
        exact absurd h (by decide)
      · rw [if_neg hc2] at h
        exact absurd h (by decide)
    · intro h
      rw [if_pos h]
  · rw [key s]
    constructor
    · intro h
      by_cases hc1 : max 0 (min 1 s) ≤ 33 / 100
      · rw [if_pos hc1] at h
        exact absurd h (by decide)
      · by_cases hc2 : max 0 (min 1 s) ≤ 66 / 100
        · exact ⟨not_le.1 hc1, hc2⟩
        · rw [if_neg hc1, if_neg hc2] at h
          exact absurd h (by decide)
    · rintro ⟨h1, h2⟩
      rw [if_neg (not_le.2 h1), if_pos h2]
  · rw [key s]
    constructor
    · intro h
      by_cases hc1 : max 0 (min 1 s) ≤ 33 / 100
      · rw [if_pos hc1] at h
        exact absurd h (by decide)
      · by_cases hc2 : max 0 (min 1 s) ≤ 66 / 100
        · rw [if_neg hc1, if_pos hc2] at h
          exact absurd h (by decide)
        · exact not_le.1 hc2
    · intro h
      have hc1 : ¬ max 0 (min 1 s) ≤ 33 / 100 := not_le.2 (lt_trans (by norm_num) h)
      rw [if_neg hc1, if_neg (not_le.2 h)]
  · rw [key s]
    by_cases hc1 : max 0 (min 1 s) ≤ 33 / 100
    · rw [if_pos hc1]
      exact Or.inl rfl
    · by_cases hc2 : max 0 (min 1 s) ≤ 66 / 100
      · rw [if_neg hc1, if_pos hc2]
        exact Or.inr (Or.inl rfl)
      · rw [if_neg hc1, if_neg hc2]
        exact Or.inr (Or.inr rfl)
  · intro s2 hs2
    have hc := hmono s s2 hs2
    rw [htier s, htier s2]
    by_cases a1 : max 0 (min 1 s) ≤ 33 / 100
    · rw [if_pos a1]
      exact Nat.zero_le _
    · by_cases b1 : max 0 (min 1 s2) ≤ 33 / 100
      · exact absurd (le_trans hc b1) a1
      · by_cases a2 : max 0 (min 1 s) ≤ 66 / 100
        · rw [if_neg a1, if_pos a2, if_neg b1]
          split <;> omega
        · by_cases b2 : max 0 (min 1 s2) ≤ 66 / 100
          · exact absurd (le_trans hc b2) a2
          · rw [if_neg a1, if_neg a2, if_neg b1, if_neg b2]

/-- Claim C7 witness: 0.5 maps to the mid tier and 0.9 to a tier at least
as high. -/
theorem color_tiers_spec_witness :
    tierOf (get_color_for_relevance (1 / 2)) ≤
      tierOf (get_color_for_relevance (9 / 10)) :=
  (color_tiers_spec (1 / 2)).2.2.2.2 (9 / 10) (by norm_num)

/-- Claim C6: whenever the placement search returns a position, the
padded bounding rectangle at that position lies entirely within the
canvas. -/
theorem find_position_in_bounds (qx qy qw qh : Int) (tw th imgW imgH : Nat)
    (occ : List Rect) (p : Int × Int)
    (h : find_position qx qy qw qh tw th imgW imgH occ = some p) :
    0 ≤ (candidateRect p tw th).x1 ∧ 0 ≤ (candidateRect p tw th).y1 ∧
    (candidateRect p tw th).x2 ≤ (imgW : Int) ∧
    (candidateRect p tw th).y2 ≤ (imgH : Int) := by
  have hp := List.find?_some h
  unfold admissible at hp
  dsimp only at hp
  split at hp
  · exact absurd hp (by simp)
  · rename_i hc
    push_neg at hc
    exact ⟨le_of_not_lt (fun hlt => by omega), le_of_not_lt (fun hlt => by omega),
      hc.2.2.1, hc.2.2.2⟩

/-- Claim C6 witness: on an empty index with a large canvas the search
returns the first candidate, whose padded rectangle is inside the
canvas. -/
theorem find_position_in_bounds_witness :
    0 ≤ (candidateRect (185, 100) 60 40).x1 ∧
    0 ≤ (candidateRect (185, 100) 60 40).y1 ∧
    (candidateRect (185, 100) 60 40).x2 ≤ (1024 : Int) ∧
    (candidateRect (185, 100) 60 40).y2 ≤ (768 : Int) :=
  find_position_in_bounds 100 100 80 80 60 40 1024 768 [] (185, 100) (by decide)

/-- Claim C1 (amended): the placement search tries exactly the six fixed
candidate positions right (top-aligned), left (top-aligned), below
(left-aligned), above (left-aligned), below centered, above centered, in
that order; each candidate is the text-origin point offset by the margin
from the anchor, and its padded bounding rectangle is that point shifted
up-left by the padding 5; a candidate is accepted exactly when its padded
rectangle stays inside the canvas and intersects no registered region;
the search returns the first accepted candidate and returns nothing
exactly when all six are rejected. -/
theorem find_position_first_admissible (qx qy qw qh : Int) (tw th imgW imgH : Nat)
    (occ : List Rect) :
    candidatePositions qx qy qw qh tw th =
      [ (qx + qw + 5, qy),
        (qx - (tw : Int) - 5, qy),
        (qx, qy + qh + 5),
        (qx, qy - (th : Int) - 5),
        (qx + qw.fdiv 2 - ((tw / 2 : Nat) : Int), qy + qh + 5),
        (qx + qw.fdiv 2 - ((tw / 2 : Nat) : Int), qy - (th : Int) - 5) ] ∧
    (∀ c : Int × Int, admissible imgW imgH occ tw th c = true ↔
      (0 ≤ (candidateRect c tw th).x1 ∧ 0 ≤ (candidateRect c tw th).y1 ∧
       (candidateRect c tw th).x2 ≤ (imgW : Int) ∧
       (candidateRect c tw th).y2 ≤ (imgH : Int) ∧
       ∀ o ∈ occ, check_overlap (candidateRect c tw th) o = false)) ∧
    (find_position qx qy qw qh tw th imgW imgH occ = none ↔
      ∀ c ∈ candidatePositions qx qy qw qh tw th,
        admissible imgW imgH occ tw th c = false) ∧
    (∀ p, find_position qx qy qw qh tw th imgW imgH occ = some p →
      ∃ l1 l2, candidatePositions qx qy qw qh tw th = l1 ++ p :: l2 ∧
        admissible imgW imgH occ tw th p = true ∧
        ∀ c ∈ l1, admissible imgW imgH occ tw th c = false) := by
  refine ⟨rfl, ?_, ?_, ?_⟩
  · intro c
    unfold admissible
    dsimp only
    split
    · rename_i hc
      constructor
      · intro h
        exact absurd h (by simp)
      · intro h
        omega
    · rename_i hc
      push_neg at hc
      rw [Bool.not_eq_true', List.any_eq_false]
      simp only [Bool.not_eq_true]
      constructor
      · intro h
        exact ⟨by omega, by omega, hc.2.2.1, hc.2.2.2, h⟩
      · intro h
        exact h.2.2.2.2
  · unfold find_position
    rw [List.find?_eq_none]
    constructor
    · intro h c hc
      simpa using h c hc
    · intro h c hc
      simp [h c hc]
  · intro p hp
    exact find?_split _ _ p hp

/-- Claim C1 witness: on an empty index the first candidate (right of the
anchor, text origin at the anchor top) is returned, and it is the head of
the candidate list with no rejected candidates before it. -/
theorem find_position_first_admissible_witness :
    ∃ l1 l2, candidatePositions 100 100 80 80 60 40 = l1 ++ (185, 100) :: l2 ∧
      admissible 1024 768 [] 60 40 (185, 100) = true ∧
      ∀ c ∈ l1, admissible 1024 768 [] 60 40 c = false :=
  (find_position_first_admissible 100 100 80 80 60 40 1024 768 []).2.2.2
    (185, 100) (by decide)

/-- Claim C1 counterexample: for the anchor (100,100,80,80) with a 60x40
block on an empty index, the search accepts the first candidate (185,100),
whose padded rectangle has top-left corner (180,95); the claim instead
describes the candidate as the padded rectangle's top-left corner offset
by the margin from the anchor, which for this candidate would be
(100+80+5, 100) = (185,100) top-aligned — but the actual padded corner
(180,95) touches the anchor's right edge and sits 5 px above the top. -/
theorem find_position_candidate_geometry_cex :
    find_position 100 100 80 80 60 40 1024 768 [] = some (185, 100) ∧
    (candidateRect (185, 100) 60 40).x1 = 180 ∧
    (candidateRect (185, 100) 60 40).y1 = 95 ∧
    ¬((180 : Int) = 100 + 80 + 5 ∧ (95 : Int) = 100) := by
  refine ⟨by decide, by decide, by decide, ?_⟩
  rintro ⟨h, -⟩
  exact absurd h (by decide)

/-- Claim C10 (amended): every processed item's line list has at least
three lines — the name line, the score line, and a first bio line
starting with "Bio:" (the third line; the last line need not start with
"Bio:" when the bio wraps) — so the measured block dimensions are
strictly positive and the zero-dimension skip branch is unreachable. -/
theorem lines_always_at_least_three (m : Str → Nat) (lineH imgW imgH : Nat)
    (occ : List Rect)
    (dets : List (Str × (Int × Int × Int × Int)))
    (profiles : Str → Option Profile) (pid : Str) (score : ℚ)
    (bbox : Int × Int × Int × Int)
    (_h : detLookup dets pid = some bbox) :
    3 ≤ (linesFor m (nameOf profiles pid) score (bioOf profiles pid)).length ∧
    (linesFor m (nameOf profiles pid) score (bioOf profiles pid))[0]? =
      some (nameLabel ++ nameOf profiles pid) ∧
    (linesFor m (nameOf profiles pid) score (bioOf profiles pid))[1]? =
      some (scoreLabel ++ formatScore score) ∧
    (∃ r, (linesFor m (nameOf profiles pid) score (bioOf profiles pid))[2]? =
      some (bioLabel ++ r)) ∧
    0 < (itemDims m lineH score (nameOf profiles pid) (bioOf profiles pid)).1 ∧
    0 < (itemDims m lineH score (nameOf profiles pid) (bioOf profiles pid)).2 ∧
    ((processItem m lineH imgW imgH occ pid bbox.1 bbox.2.1 bbox.2.2.1 bbox.2.2.2
      score (nameOf profiles pid) (bioOf profiles pid)).1.block).isSome = true := by
  obtain ⟨r, rest, hw⟩ :=
    wrapTokens_head m text_block_max_width (pySplitSpace (bioOf profiles pid))
  have h3 := linesFor_length m (nameOf profiles pid) score (bioOf profiles pid)
  have hd := dims_pos m lineH text_block_max_width _ h3
  refine ⟨h3, ?_, ?_, ⟨r, ?_⟩, hd.1, hd.2,
    processItem_block_isSome _ _ _ _ _ _ _ _ _ _ _ _ _⟩
  · unfold linesFor
    simp
  · unfold linesFor
    simp
  · unfold linesFor bioLines
    rw [hw]
    simp

/-- Claim C10 witness: a concrete processed item (id present in the
detections list) with a short bio. -/
theorem lines_always_at_least_three_witness :
    3 ≤ (linesFor (fun l => l.length) (nameOf (fun _ => none) ['a']) (1 / 2)
      (bioOf (fun _ => none) ['a'])).length ∧
    (linesFor (fun l => l.length) (nameOf (fun _ => none) ['a']) (1 / 2)
      (bioOf (fun _ => none) ['a']))[0]? =
      some (nameLabel ++ nameOf (fun _ => none) ['a']) ∧
    (linesFor (fun l => l.length) (nameOf (fun _ => none) ['a']) (1 / 2)
      (bioOf (fun _ => none) ['a']))[1]? =
      some (scoreLabel ++ formatScore (1 / 2)) ∧
    (∃ r, (linesFor (fun l => l.length) (nameOf (fun _ => none) ['a']) (1 / 2)
      (bioOf (fun _ => none) ['a']))[2]? = some (bioLabel ++ r)) ∧
    0 < (itemDims (fun l => l.length) 10 (1 / 2) (nameOf (fun _ => none) ['a'])
      (bioOf (fun _ => none) ['a'])).1 ∧
    0 < (itemDims (fun l => l.length) 10 (1 / 2) (nameOf (fun _ => none) ['a'])
      (bioOf (fun _ => none) ['a'])).2 ∧
    ((processItem (fun l => l.length) 10 100 100 [] ['a'] 10 10 20 20 (1 / 2)
      (nameOf (fun _ => none) ['a'])
      (bioOf (fun _ => none) ['a'])).1.block).isSome = true :=
  lines_always_at_least_three (fun l => l.length) 10 100 100 []
    [(['a'], (10, 10, 20, 20))] (fun _ => none) ['a'] (1 / 2)
    (10, 10, 20, 20) (by decide)

/-- Claim C10 counterexample: with a per-character width of 40 the bio
"aaaa bbbb" wraps onto two lines and the final returned line is "bbbb",
which does not start with "Bio:"; so the last line of the list need not
be a "Bio:" line, only the third one is. -/
theorem last_line_not_bio_cex :
    (linesFor (fun l => 40 * l.length) ['X'] (1 / 2)
      ['a', 'a', 'a', 'a', ' ', 'b', 'b', 'b', 'b']).getLast? =
      some ['b', 'b', 'b', 'b'] ∧
    ¬ ∃ r, (['b', 'b', 'b', 'b'] : Str) = bioLabel ++ r := by
  refine ⟨by decide, ?_⟩
  rintro ⟨r, hr⟩
  have h2 : (['b', 'b', 'b', 'b'] : Str).head? = (bioLabel ++ r).head? :=
    congrArg _ hr
  simp only [bioLabel, List.cons_append, List.head?_cons, Option.some.injEq] at h2
  exact absurd h2 (by decide)

/-- Claim C4 (amended): an empty body text does not wrap to zero lines:
it yields the single bio line "Bio:", so the item's line list is the
name line, the score line and "Bio:", the text block is drawn and
registered rather than skipped, the anchor box is recorded
unconditionally, and the pass processes every ranked entry whose id is in
the detections map, never aborting. -/
theorem empty_bio_three_lines (m : Str → Nat) (lineH imgW imgH : Nat)
    (occ : List Rect) (pid : Str) (qx qy qw qh : Int) (score : ℚ)
    (name : Str) :
    bioLines m text_block_max_width [] = [bioLabel] ∧
    linesFor m name score [] =
      [nameLabel ++ name, scoreLabel ++ formatScore score, bioLabel] ∧
    ((processItem m lineH imgW imgH occ pid qx qy qw qh score name []).1.block).isSome
      = true ∧
    (processItem m lineH imgW imgH occ pid qx qy qw qh score name []).1.boxRect =
      ⟨qx, qy, qx + qw, qy + qh⟩ ∧
    ∀ (ranked : List (Str × ℚ)) (dets : List (Str × (Int × Int × Int × Int)))
      (profiles : Str → Option Profile),
      ((annotate_pass m lineH imgW imgH ranked dets profiles).2).length =
        (ranked.filter fun e => (detLookup dets e.1).isSome).length := by
  have hstrip : pyStrip (bioLabel ++ ' ' :: []) = bioLabel := by decide
  have hstep : wrapStep m text_block_max_width ([], bioLabel) [] = ([], bioLabel) := by
    unfold wrapStep
    dsimp only
    rw [hstrip]
    rw [if_neg (fun hc => hc.2 rfl)]
  have hbl : bioLines m text_block_max_width [] = [bioLabel] := by
    unfold bioLines pySplitSpace wrapTokens
    rw [List.foldl_cons, hstep, List.foldl_nil]
    rw [if_pos (by simp [bioLabel])]
    rfl
  refine ⟨hbl, ?_, processItem_block_isSome _ _ _ _ _ _ _ _ _ _ _ _ _, ?_, ?_⟩
  · unfold linesFor
    rw [hbl]
  · unfold processItem
    dsimp only
    split
    · rfl
    · split <;> rfl
  · intro ranked dets profiles
    unfold annotate_pass
    have main : ∀ (l : List (Str × ℚ)) (st : List Rect × List ItemResult),
        ((l.foldl (layoutStep m lineH imgW imgH dets profiles) st).2).length =
          st.2.length + (l.filter fun e => (detLookup dets e.1).isSome).length := by
      intro l
      induction l with
      | nil => intro st; simp
      | cons e t ih =>
        intro st
        rw [List.foldl_cons]
        rw [ih]
        unfold layoutStep
        cases hdl : detLookup dets e.1 with
        | none => simp [hdl, List.filter_cons]
        | some bbox =>
          dsimp only
          simp [hdl, List.filter_cons]
          omega
    rw [main]
    simp

/-- Claim C4 counterexample: for the empty bio the wrap yields the single
line "Bio:" (one line, not zero), and the item's text block is drawn and
registered rather than skipped. -/
theorem empty_bio_nonzero_lines_cex :
    bioLines (fun l => l.length) text_block_max_width [] = [bioLabel] ∧
    ([bioLabel] : List Str).length ≠ 0 ∧
    ((processItem (fun l => l.length) 10 100 100 [] ['a'] 10 10 20 20 1
      ['X'] []).1.block).isSome = true ∧
    (processItem (fun l => l.length) 10 100 100 [] ['a'] 10 10 20 20 1
      ['X'] []).2 ≠ [] := by
  refine ⟨by decide, by decide, by decide, by decide⟩

/-- Claim C8 (amended): for any non-empty sequence of non-empty
whitespace-free tokens (the result of whitespace-normalized splitting)
and any measure, joining the returned lines with single spaces
reproduces the seed "Bio:" followed by the space-joined tokens — no
token dropped, duplicated, split or reordered.  (For raw text split on
single spaces, consecutive spaces yield empty tokens and the round trip
can fail; see the counterexample.) -/
theorem wrapTokens_roundtrip (m : Str → Nat) (maxW : Nat) (toks : List Str)
    (_hne : toks ≠ [])
    (ht : ∀ t ∈ toks, t ≠ [] ∧ ∀ c ∈ t, isWs c = false) :
    joinSp (wrapTokens m maxW toks) = joinSp (bioLabel :: toks) := by
  obtain ⟨hok, hjoin⟩ := wrap_fold_join m maxW toks ([], bioLabel) ht okStr_bioLabel
  unfold wrapTokens
  dsimp only
  rw [if_pos hok.1, hjoin, joinSp_cons_flat bioLabel toks]
  rfl

/-- Claim C8 witness: two short tokens wrap and re-join exactly. -/
theorem wrapTokens_roundtrip_witness :
    joinSp (wrapTokens (fun l => l.length) 250 [['h', 'i'], ['y', 'o', 'u']]) =
      joinSp (bioLabel :: [['h', 'i'], ['y', 'o', 'u']]) :=
  wrapTokens_roundtrip _ _ _ (by decide) (by decide)

/-- Claim C8 counterexample: the source splits on single spaces, so the
bio "w1  w2" (two spaces, with over-wide words under a 10px budget)
yields the lines ["Bio: w1", "", "w2"], and joining them with single
spaces gives "Bio: w1  w2" with a double space — not the
whitespace-normalized input "Bio: w1 w2". -/
theorem wrapTokens_roundtrip_cex :
    bioLines (fun l => 10 * l.length) 10 ['w', '1', ' ', ' ', 'w', '2'] =
      [bioLabel ++ [' ', 'w', '1'], [], ['w', '2']] ∧
    joinSp (bioLines (fun l => 10 * l.length) 10 ['w', '1', ' ', ' ', 'w', '2']) ≠
      bioLabel ++ [' ', 'w', '1', ' ', 'w', '2'] := by
  refine ⟨by decide, by decide⟩

/-- Claim C3 (amended): for any sequence of non-empty whitespace-free
tokens and any measure, every returned line that measures over the
budget is either the bare seed "Bio:", a single token, or the seed
"Bio:" followed by a single token (the seed absorbs the first token of
its segment unconditionally); in particular every other line is within
the budget. -/
theorem wrapTokens_width_bound (m : Str → Nat) (maxW : Nat) (toks : List Str)
    (ht : ∀ t ∈ toks, t ≠ [] ∧ ∀ c ∈ t, isWs c = false) :
    ∀ s ∈ wrapTokens m maxW toks, m s > maxW →
      s = bioLabel ∨ s ∈ toks ∨ ∃ t ∈ toks, s = bioLabel ++ ' ' :: t := by
  obtain ⟨hok, hcur, hlines⟩ := wrap_fold_width m maxW toks toks ([], bioLabel)
    (fun t htt => ⟨htt, (ht t htt).1, (ht t htt).2⟩) okStr_bioLabel
    (Or.inl rfl) (by simp)
  intro s hs hover
  unfold wrapTokens at hs
  dsimp only at hs
  rw [if_pos hok.1] at hs
  rcases List.mem_append.1 hs with h1 | h2
  · exact hlines s h1 hover
  · have heq : s = (toks.foldl (wrapStep m maxW) ([], bioLabel)).2 := by
      simpa using h2
    subst heq
    rcases hcur with h1 | h2 | h3 | h4
    · exact Or.inl h1
    · omega
    · exact Or.inr (Or.inl h3)
    · exact Or.inr (Or.inr h4)

/-- Claim C3 witness: a single 8-character token at 10px per character on
a 60px budget produces the over-wide returned line "Bio: aaaaaaaa",
which is of one of the allowed shapes. -/
theorem wrapTokens_width_bound_witness :
    bioLabel ++ ' ' :: ['a', 'a', 'a', 'a', 'a', 'a', 'a', 'a'] = bioLabel ∨
    bioLabel ++ ' ' :: ['a', 'a', 'a', 'a', 'a', 'a', 'a', 'a'] ∈
      [['a', 'a', 'a', 'a', 'a', 'a', 'a', 'a']] ∨
    ∃ t ∈ [['a', 'a', 'a', 'a', 'a', 'a', 'a', 'a']],
      bioLabel ++ ' ' :: ['a', 'a', 'a', 'a', 'a', 'a', 'a', 'a'] =
        bioLabel ++ ' ' :: t :=
  wrapTokens_width_bound (fun l => 10 * l.length) 60
    [['a', 'a', 'a', 'a', 'a', 'a', 'a', 'a']] (by decide)
    (bioLabel ++ ' ' :: ['a', 'a', 'a', 'a', 'a', 'a', 'a', 'a'])
    (by decide) (by decide)

/-- Claim C3 counterexample: the first token joins the non-empty seed
"Bio:" unconditionally, so the returned line "Bio: aaaaaaaa" measures
130 > 60 yet is not a single over-width token — refuting both the
claim's flush condition (the current line "Bio:" is non-empty, yet no
flush happens) and its width-bound exception. -/
theorem wrapTokens_overwide_line_cex :
    wrapTokens (fun l => 10 * l.length) 60
        [['a', 'a', 'a', 'a', 'a', 'a', 'a', 'a']] =
      [bioLabel ++ ' ' :: ['a', 'a', 'a', 'a', 'a', 'a', 'a', 'a']] ∧
    10 * (bioLabel ++ ' ' :: ['a', 'a', 'a', 'a', 'a', 'a', 'a', 'a']).length > 60 ∧
    (bioLabel ++ ' ' :: ['a', 'a', 'a', 'a', 'a', 'a', 'a', 'a']) ∉
      [['a', 'a', 'a', 'a', 'a', 'a', 'a', 'a']] := by
  refine ⟨by decide, by decide, by decide⟩

/-- Both coordinates of the fallback position are at least 5 (the last
two clamps of the source). -/
theorem fallback_position_ge (qx qy qw : Int) (tw th imgW imgH : Nat) :
    5 ≤ (fallback_position qx qy qw tw th imgW imgH).1 ∧
    5 ≤ (fallback_position qx qy qw tw th imgW imgH).2 := by
  unfold fallback_position
  dsimp only
  constructor
  · split <;> omega
  · split <;> omega

/-- When the block width fits the canvas, the clamped fallback x keeps
the right edge of the block inside the canvas. -/
theorem fallback_position_right (qx qy qw : Int) (tw th imgW imgH : Nat)
    (hw : tw ≤ imgW) :
    (fallback_position qx qy qw tw th imgW imgH).1 + (tw : Int) - 5 ≤
      (imgW : Int) := by
  unfold fallback_position
  dsimp only
  split
  · split <;> omega
  · split <;> omega

/-- When the block height fits the canvas, the clamped fallback y keeps
the bottom edge of the block inside the canvas. -/
theorem fallback_position_bottom (qx qy qw : Int) (tw th imgW imgH : Nat)
    (hh : th ≤ imgH) :
    (fallback_position qx qy qw tw th imgW imgH).2 + (th : Int) - 5 ≤
      (imgH : Int) := by
  unfold fallback_position
  dsimp only
  split
  · split <;> omega
  · split <;> omega

/-- The final adjustment is the identity on positions with both
coordinates at least 5. -/
theorem adjust_position_eq_of_ge (p : Int × Int) (hx : 5 ≤ p.1)
    (hy : 5 ≤ p.2) : adjust_position p = p := by
  unfold adjust_position
  dsimp only
  rw [if_neg (by omega), if_neg (by omega)]

/-- For a non-empty line list, the rectangle returned by the drawing
primitive equals the padded candidate rectangle at the measured
dimensions. -/
theorem draw_block_rect_eq (m : Str → Nat) (lineH maxW : Nat)
    (lines : List Str) (p : Int × Int) (hne : lines ≠ []) :
    draw_block_rect m lineH maxW lines p =
      candidateRect p (get_text_block_dimensions m lineH maxW lines).1
        (get_text_block_dimensions m lineH maxW lines).2 := by
  unfold draw_block_rect candidateRect get_text_block_dimensions
  rw [if_neg hne, if_neg hne]
  dsimp only
  simp only [Rect.mk.injEq, true_and]
  constructor <;> push_cast <;> ring

/-- Every occupied region after processing one item is either an old
region or, provided the item's measured block fits the canvas, a
rectangle inside the canvas. -/
theorem processItem_occ (m : Str → Nat) (lineH imgW imgH : Nat)
    (occ : List Rect) (pid : Str) (qx qy qw qh : Int) (score : ℚ)
    (name bio : Str)
    (hw : (itemDims m lineH score name bio).1 ≤ imgW)
    (hh : (itemDims m lineH score name bio).2 ≤ imgH) :
    ∀ r ∈ (processItem m lineH imgW imgH occ pid qx qy qw qh score name bio).2,
      r ∈ occ ∨ (0 ≤ r.x1 ∧ 0 ≤ r.y1 ∧ r.x2 ≤ (imgW : Int) ∧
        r.y2 ≤ (imgH : Int)) := by
  have h3 := linesFor_length m name score bio
  have hlne : linesFor m name score bio ≠ [] := by
    intro h
    rw [h] at h3
    simp at h3
  have hd := dims_pos m lineH text_block_max_width (linesFor m name score bio) h3
  unfold itemDims at hw hh
  unfold processItem
  dsimp only
  rw [if_neg (by omega)]
  split
  · rename_i p hfp
    intro r hr
    rcases List.mem_append.1 hr with h1 | h2
    · exact Or.inl h1
    · have hrd : r = draw_block_rect m lineH text_block_max_width
          (linesFor m name score bio) (adjust_position p) := by simpa using h2
      have hb := find_position_in_bounds qx qy qw qh _ _ imgW imgH occ p hfp
      have hp5 : 5 ≤ p.1 ∧ 5 ≤ p.2 := by
        unfold candidateRect at hb
        dsimp only at hb
        omega
      rw [adjust_position_eq_of_ge p hp5.1 hp5.2] at hrd
      rw [hrd, draw_block_rect_eq m lineH text_block_max_width _ p hlne]
      exact Or.inr hb
  · rename_i hfp
    intro r hr
    rcases List.mem_append.1 hr with h1 | h2
    · exact Or.inl h1
    · rename_i hfp2
      have hge := fallback_position_ge qx qy qw
        (get_text_block_dimensions m lineH text_block_max_width
          (linesFor m name score bio)).1
        (get_text_block_dimensions m lineH text_block_max_width
          (linesFor m name score bio)).2 imgW imgH
      have hrd : r = draw_block_rect m lineH text_block_max_width
          (linesFor m name score bio)
          (adjust_position (fallback_position qx qy qw
            (get_text_block_dimensions m lineH text_block_max_width
              (linesFor m name score bio)).1
            (get_text_block_dimensions m lineH text_block_max_width
              (linesFor m name score bio)).2 imgW imgH)) := by simpa using h2
      rw [adjust_position_eq_of_ge _ hge.1 hge.2] at hrd
      rw [hrd, draw_block_rect_eq m lineH text_block_max_width _ _ hlne]
      refine Or.inr ?_
      have hr1 := fallback_position_right qx qy qw _
        (get_text_block_dimensions m lineH text_block_max_width
          (linesFor m name score bio)).2 imgW imgH hw
      have hr2 := fallback_position_bottom qx qy qw
        (get_text_block_dimensions m lineH text_block_max_width
          (linesFor m name score bio)).1 _ imgW imgH hh
      unfold candidateRect
      dsimp only
      refine ⟨by omega, by omega, ?_, ?_⟩
      · exact le_trans (le_of_eq (by ring)) hr1
      · exact le_trans (le_of_eq (by ring)) hr2

/-- Claim C2 (amended): at the end of one layout pass, every rectangle
registered in the occupied-regions list lies within the canvas bounds,
including fallback rectangles, provided every ranked item's measured
block fits within the canvas (block width at most the canvas width and
block height at most the canvas height); a block larger than the canvas
cannot lie inside it and the fallback clamp then leaves the right or
bottom edge outside. -/
theorem annotate_pass_regions_in_bounds (m : Str → Nat) (lineH imgW imgH : Nat)
    (ranked : List (Str × ℚ)) (dets : List (Str × (Int × Int × Int × Int)))
    (profiles : Str → Option Profile)
    (hfit : ∀ e ∈ ranked, (itemBlockDims m lineH profiles e.1 e.2).1 ≤ imgW ∧
      (itemBlockDims m lineH profiles e.1 e.2).2 ≤ imgH) :
    ∀ r ∈ (annotate_pass m lineH imgW imgH ranked dets profiles).1,
      0 ≤ r.x1 ∧ 0 ≤ r.y1 ∧ r.x2 ≤ (imgW : Int) ∧ r.y2 ≤ (imgH : Int) := by
  unfold annotate_pass
  have main : ∀ (l : List (Str × ℚ)) (st : List Rect × List ItemResult),
      (∀ e ∈ l, (itemBlockDims m lineH profiles e.1 e.2).1 ≤ imgW ∧
        (itemBlockDims m lineH profiles e.1 e.2).2 ≤ imgH) →
      (∀ r ∈ st.1, 0 ≤ r.x1 ∧ 0 ≤ r.y1 ∧ r.x2 ≤ (imgW : Int) ∧
        r.y2 ≤ (imgH : Int)) →
      ∀ r ∈ (l.foldl (layoutStep m lineH imgW imgH dets profiles) st).1,
        0 ≤ r.x1 ∧ 0 ≤ r.y1 ∧ r.x2 ≤ (imgW : Int) ∧ r.y2 ≤ (imgH : Int) := by
    intro l
    induction l with
    | nil => intro st _ hst; exact hst
    | cons e t ih =>
      intro st hl hst
      rw [List.foldl_cons]
      apply ih _ (fun x hx => hl x (by simp [hx]))
      intro r hr
      unfold layoutStep at hr
      cases hdl : detLookup dets e.1 with
      | none =>
        rw [hdl] at hr
        exact hst r hr
      | some bbox =>
        rw [hdl] at hr
        dsimp only at hr
        rcases processItem_occ m lineH imgW imgH st.1 e.1 bbox.1 bbox.2.1
            bbox.2.2.1 bbox.2.2.2 e.2 (nameOf profiles e.1) (bioOf profiles e.1)
            (hl e (by simp)).1 (hl e (by simp)).2 r hr with hin | hb
        · exact hst r hin
        · exact hb
  exact main ranked ([], []) hfit (by simp)

/-- Claim C2 witness: a single-item pass on a 100x100 canvas whose block
fits; the one registered region is (30,5,63,55) and lies inside the
canvas. -/
theorem annotate_pass_regions_in_bounds_witness :
    Rect.mk 30 5 63 55 ∈ (annotate_pass (fun l => l.length) 10 100 100
      [(['a'], 1)] [(['a'], (10, 10, 20, 20))] (fun _ => none)).1 ∧
    0 ≤ (Rect.mk 30 5 63 55).x1 ∧ 0 ≤ (Rect.mk 30 5 63 55).y1 ∧
    (Rect.mk 30 5 63 55).x2 ≤ (100 : Int) ∧
    (Rect.mk 30 5 63 55).y2 ≤ (100 : Int) :=
  ⟨by decide,
    annotate_pass_regions_in_bounds (fun l => l.length) 10 100 100
      [(['a'], 1)] [(['a'], (10, 10, 20, 20))] (fun _ => none) (by decide)
      (Rect.mk 30 5 63 55) (by decide)⟩

/-- Claim C2 counterexample: with a line height of 40 the three-line
block is 140px tall on a 100px-tall canvas; every candidate is rejected,
and the clamped fallback registers the rectangle (30,0,63,140), whose
bottom edge 140 exceeds the canvas height 100. -/
theorem annotate_pass_oob_region_cex :
    (annotate_pass (fun l => l.length) 40 100 100 [(['a'], 1)]
        [(['a'], (10, 10, 20, 20))] (fun _ => none)).1 =
      [⟨30, 0, 63, 140⟩] ∧
    ¬((140 : Int) ≤ (100 : Int)) := by
  refine ⟨by decide, by decide⟩

/-- When no clamp fires, the fallback position is exactly the point
immediately right of the anchor with the fixed vertical offset 5. -/
theorem fallback_position_unclamped (qx qy qw : Int) (tw th imgW imgH : Nat)
    (h1 : qx + qw + 5 + (tw : Int) - 5 ≤ (imgW : Int))
    (h2 : qy + 5 + (th : Int) - 5 ≤ (imgH : Int))
    (h3 : 5 ≤ qx + qw + 5) (h4 : 5 ≤ qy + 5) :
    fallback_position qx qy qw tw th imgW imgH =
      (qx + qw + qr_box_padding, qy + 5) := by
  unfold fallback_position qr_box_padding
  dsimp only
  rw [if_neg (show ¬(qx + qw + 5 + (tw : Int) - 5 > (imgW : Int)) from by omega),
    if_neg (show ¬(qy + 5 + (th : Int) - 5 > (imgH : Int)) from by omega),
    if_neg (show ¬(qx + qw + 5 < 5) from by omega),
    if_neg (show ¬(qy + 5 < 5) from by omega)]

/-- Claim C5 (amended): when all six candidates are rejected, the block
is placed immediately to the right of the anchor with a small fixed
vertical offset of 5, the rectangle is clamped — the left and top edges
are never negative, and the right and bottom edges do not exceed the
canvas provided the block's width and height fit within the canvas — and
the fallback rectangle is registered into the occupied-regions list so
subsequent items account for it. -/
theorem fallback_placement_spec (m : Str → Nat) (lineH imgW imgH : Nat)
    (occ : List Rect) (pid : Str) (qx qy qw qh : Int) (score : ℚ)
    (name bio : Str)
    (hnone : find_position qx qy qw qh (itemDims m lineH score name bio).1
      (itemDims m lineH score name bio).2 imgW imgH occ = none) :
    ∃ b : BlockResult,
      (processItem m lineH imgW imgH occ pid qx qy qw qh score name bio).1.block
        = some b ∧
      b.usedFallback = true ∧
      b.pos = fallback_position qx qy qw (itemDims m lineH score name bio).1
        (itemDims m lineH score name bio).2 imgW imgH ∧
      (qx + qw + 5 + ((itemDims m lineH score name bio).1 : Int) - 5 ≤ (imgW : Int) →
        qy + 5 + ((itemDims m lineH score name bio).2 : Int) - 5 ≤ (imgH : Int) →
        5 ≤ qx + qw + 5 → 5 ≤ qy + 5 →
        b.pos = (qx + qw + qr_box_padding, qy + 5)) ∧
      0 ≤ b.drawnRect.x1 ∧ 0 ≤ b.drawnRect.y1 ∧
      ((itemDims m lineH score name bio).1 ≤ imgW →
        b.drawnRect.x2 ≤ (imgW : Int)) ∧
      ((itemDims m lineH score name bio).2 ≤ imgH →
        b.drawnRect.y2 ≤ (imgH : Int)) ∧
      (processItem m lineH imgW imgH occ pid qx qy qw qh score name bio).2 =
        occ ++ [b.drawnRect] := by
  have h3 := linesFor_length m name score bio
  have hlne : linesFor m name score bio ≠ [] := by
    intro h
    rw [h] at h3
    simp at h3
  have hd := dims_pos m lineH text_block_max_width (linesFor m name score bio) h3
  unfold itemDims at hnone
  have hge := fallback_position_ge qx qy qw
    (get_text_block_dimensions m lineH text_block_max_width
      (linesFor m name score bio)).1
    (get_text_block_dimensions m lineH text_block_max_width
      (linesFor m name score bio)).2 imgW imgH
  unfold processItem
  dsimp only
  rw [if_neg (by omega), hnone]
  dsimp only
  rw [adjust_position_eq_of_ge _ hge.1 hge.2]
  refine ⟨_, rfl, rfl, rfl, ?_, ?_⟩
  · intro h1 h2 h3x h4y
    unfold itemDims at h1 h2
    exact fallback_position_unclamped qx qy qw _ _ imgW imgH h1 h2 h3x h4y
  · rw [draw_block_rect_eq m lineH text_block_max_width _ _ hlne]
    have hr1 := fun hw => fallback_position_right qx qy qw
      (get_text_block_dimensions m lineH text_block_max_width
        (linesFor m name score bio)).1
      (get_text_block_dimensions m lineH text_block_max_width
        (linesFor m name score bio)).2 imgW imgH hw
    have hr2 := fun hh => fallback_position_bottom qx qy qw
      (get_text_block_dimensions m lineH text_block_max_width
        (linesFor m name score bio)).1
      (get_text_block_dimensions m lineH text_block_max_width
        (linesFor m name score bio)).2 imgW imgH hh
    unfold candidateRect
    dsimp only
    refine ⟨by omega, by omega, ?_, ?_, rfl⟩
    · intro hw
      exact le_trans (le_of_eq (by ring)) (hr1 hw)
    · intro hh
      exact le_trans (le_of_eq (by ring)) (hr2 hh)

/-- Claim C5 witness: a canvas fully covered by one occupied region
rejects all six candidates; the fallback places the block right of the
anchor at (35,15), inside the canvas, and registers it. -/
theorem fallback_placement_spec_witness :
    ∃ b : BlockResult,
      (processItem (fun l => l.length) 10 100 100 [⟨0, 0, 100, 100⟩] ['a']
        10 10 20 20 1 ['X'] ['h', 'i']).1.block = some b ∧
      b.usedFallback = true ∧
      b.pos = fallback_position 10 10 20
        (itemDims (fun l => l.length) 10 1 ['X'] ['h', 'i']).1
        (itemDims (fun l => l.length) 10 1 ['X'] ['h', 'i']).2 100 100 ∧
      ((10 : Int) + 20 + 5 +
          ((itemDims (fun l => l.length) 10 1 ['X'] ['h', 'i']).1 : Int) - 5 ≤
          (100 : Int) →
        (10 : Int) + 5 +
          ((itemDims (fun l => l.length) 10 1 ['X'] ['h', 'i']).2 : Int) - 5 ≤
          (100 : Int) →
        5 ≤ (10 : Int) + 20 + 5 → 5 ≤ (10 : Int) + 5 →
        b.pos = ((10 : Int) + 20 + qr_box_padding, (10 : Int) + 5)) ∧
      0 ≤ b.drawnRect.x1 ∧ 0 ≤ b.drawnRect.y1 ∧
      ((itemDims (fun l => l.length) 10 1 ['X'] ['h', 'i']).1 ≤ 100 →
        b.drawnRect.x2 ≤ (100 : Int)) ∧
      ((itemDims (fun l => l.length) 10 1 ['X'] ['h', 'i']).2 ≤ 100 →
        b.drawnRect.y2 ≤ (100 : Int)) ∧
      (processItem (fun l => l.length) 10 100 100 [⟨0, 0, 100, 100⟩] ['a']
        10 10 20 20 1 ['X'] ['h', 'i']).2 =
        [⟨0, 0, 100, 100⟩] ++ [b.drawnRect] :=
  fallback_placement_spec (fun l => l.length) 10 100 100 [⟨0, 0, 100, 100⟩]
    ['a'] 10 10 20 20 1 ['X'] ['h', 'i'] (by decide)

/-- Claim C5 counterexample: a 140px-tall block on a 100x90 canvas has
every candidate rejected; the fallback clamp sets y to 5 and the
registered rectangle (30,0,51,140) has bottom edge 140 > 90, so the
claim that the clamped rectangle's bottom edge never exceeds the canvas
fails when the block is taller than the canvas. -/
theorem fallback_oob_cex :
    (processItem (fun l => l.length) 40 100 90 [] ['a'] 10 10 20 20 1
      ['X'] ['h', 'i']).1.block =
      some ⟨(35, 5), true, ⟨30, 0, 51, 140⟩⟩ ∧
    ¬((140 : Int) ≤ (90 : Int)) := by
  refine ⟨by decide, by decide⟩

end Annotate
